import Mathlib

/-
Verification development for the pylliterate file-processing driver
(`pylliterate/__init__.py`): the functions `process` and `process_all`,
together with a model of the parsing/rendering engine they drive.

The driver is embedded over an explicit file-system state: paths are lists
of components (as produced by `pathlib.Path.parts`), the file system is a
record of existing directories, file contents, and unreadable paths.
Failure (a Python exception) is modelled by returning the file-system
state reached so far together with `some` error.
-/

namespace Pylliterate

/-- A file-system path, as its list of components (`pathlib.Path.parts`). -/
abbrev FPath := List String

/-- `Path.name`: the final path component (empty for the root path). -/
def pathName (p : FPath) : String := p.getLastD ""

/-- `Path.parent`: the path with its final component removed. -/
def pathParent (p : FPath) : FPath := p.dropLast

/-- Index of the last occurrence of a dot in a list of characters. -/
def lastDotIdx (cs : List Char) : Option Nat :=
  match (cs.reverse).findIdx? (fun c => c = '.') with
  | none => none
  | some j => some (cs.length - 1 - j)

/-- `Path.suffix`, as computed by pathlib: the substring of the final
component from its last dot on, provided that dot is neither the first
nor the last character of the component; otherwise the empty string. -/
def pathSuffix (p : FPath) : String :=
  let cs := (pathName p).toList
  match lastDotIdx cs with
  | none => ""
  | some i => if 0 < i ∧ i + 1 < cs.length then String.mk (cs.drop i) else ""

/-- Errors raised by file-system operations: `fileNotFound` models
`FileNotFoundError` (missing file, or missing ancestor directory in
`mkdir`), `readError` models a file that exists but cannot be read
(permissions, encoding). -/
inductive Err where
  | fileNotFound
  | readError
deriving DecidableEq, Repr

/-- The file-system state: the set of existing directories, an association
list from paths to file contents (most recent write first), and the set of
paths whose contents cannot be read. -/
structure FS where
  dirs : List FPath
  files : List (FPath × String)
  blocked : List FPath
deriving DecidableEq, Repr

/-- Membership of a path in a list of paths. -/
def memPath : List FPath → FPath → Bool
  | [], _ => false
  | q :: rest, p => if p = q then true else memPath rest p

/-- Lookup of a path in the file table. -/
def lookupFile : List (FPath × String) → FPath → Option String
  | [], _ => none
  | (q, d) :: rest, p => if p = q then some d else lookupFile rest p

/-- A directory exists if it is the root (empty path) or is recorded. -/
def dirExists (fs : FS) (d : FPath) : Bool :=
  d.isEmpty || memPath fs.dirs d

/-- Reading a file: raises `readError` on an unreadable path and
`fileNotFound` on a missing one. -/
def fsRead (fs : FS) (p : FPath) : Except Err String :=
  if memPath fs.blocked p then Except.error Err.readError
  else
    match lookupFile fs.files p with
    | some d => Except.ok d
    | none => Except.error Err.fileNotFound

/-- Writing a file: always succeeds, overwriting any previous contents. -/
def fsWrite (fs : FS) (p : FPath) (d : String) : FS :=
  { fs with files := (p, d) :: fs.files }

/-- `Path.mkdir(exist_ok=True)` without `parents=True`: succeeds (as a
no-op) when the directory already exists, creates it when its own parent
exists, and raises `FileNotFoundError` when that parent is missing. -/
def mkdirExistOk (fs : FS) (d : FPath) : Except Err FS :=
  if dirExists fs d then Except.ok fs
  else if dirExists fs (pathParent d) then
    Except.ok { fs with dirs := d :: fs.dirs }
  else Except.error Err.fileNotFound

/-- Modelled from the spec: `PylliterateConfig` (the configuration loader
lives outside `src/`). Per the spec's configuration surface it carries a
collection of `(input_path, output_path)` pairs and the boolean toggle for
inline-comment prose rendering. -/
structure Config where
  inline : Bool
  files : List (FPath × FPath)
deriving DecidableEq, Repr

/- ### The parsing/rendering engine (modelled from the spec)

The `Parser` and `Content` classes live in `pylliterate/core.py`, which is
not under `src/`; the definitions below are modelled from the spec's
component design (line classifier, block builder, content rendering with
the inline-prose render-time transform). -/

/-- The kind of a classified physical line. -/
inductive Kind where
  | narrative
  | code
deriving DecidableEq, Repr

/-- Leading-whitespace count of a line (its indentation width). -/
def leadingWs (l : String) : Nat :=
  (l.toList.takeWhile (fun c => c = ' ' || c = '\t')).length

/-- Whether a line consists only of whitespace. -/
def isBlank (l : String) : Bool :=
  l.toList.all (fun c => c = ' ' || c = '\t')

/-- Whether a line's first non-whitespace character is the comment marker. -/
def isCommentLine (l : String) : Bool :=
  match l.toList.dropWhile (fun c => c = ' ' || c = '\t') with
  | '#' :: _ => true
  | _ => false

/-- Modelled from the spec (Line Classifier): a comment line at the top
indentation level is Narrative; every other non-blank line (including a
comment at deeper indentation) is Code. -/
def classifyNonBlank (l : String) : Kind :=
  if isCommentLine l ∧ leadingWs l = 0 then Kind.narrative else Kind.code

/-- An inline comment: a comment line nested below the top indentation
level (it belongs inside a code block). -/
def isInlineComment (l : String) : Bool :=
  isCommentLine l && decide (0 < leadingWs l)

/-- Backward pass of blank-line classification: for each line, the kind of
the nearest non-blank line at or after it (none for trailing blanks). -/
def kindsBack : List String → List (Option Kind) × Option Kind
  | [] => ([], none)
  | l :: rest =>
    let r := kindsBack rest
    if isBlank l then (r.2 :: r.1, r.2)
    else
      let k := classifyNonBlank l
      (some k :: r.1, some k)

/-- Forward pass: trailing blank lines (unresolved by the backward pass)
join the previous block's kind; a file of only blanks defaults to Code. -/
def fillForward : Option Kind → List String → List (Option Kind) → List (String × Kind)
  | _, [], _ => []
  | _, _ :: _, [] => []
  | prev, l :: ls, ok :: oks =>
    match ok with
    | some k => (l, k) :: fillForward (some k) ls oks
    | none =>
      let k := prev.getD Kind.code
      (l, k) :: fillForward prev ls oks

/-- Modelled from the spec (Line Classifier): classify every line, with
blank lines joining the next non-blank line's kind and trailing blanks
joining the previous block. -/
def classifyAll (lines : List String) : List (String × Kind) :=
  fillForward none lines (kindsBack lines).1

/-- A parsed block: a run of narrative lines or a run of code lines. -/
inductive Block where
  | narrative (ls : List String)
  | code (ls : List String)
deriving DecidableEq, Repr

/-- Whether a block is a narrative block. -/
def Block.isNarrative : Block → Bool
  | .narrative _ => true
  | .code _ => false

/-- The lines stored in a block. -/
def blockLines : Block → List String
  | .narrative ls => ls
  | .code ls => ls

/-- All lines of a block sequence, in order. -/
def blocksFlatten (bs : List Block) : List String :=
  bs.flatMap blockLines

/-- Strip the comment marker (and one following space) from a narrative
line, per the spec's NarrativeBlock representation. -/
def stripMarker (l : String) : String :=
  match l.toList with
  | '#' :: ' ' :: rest => String.mk rest
  | '#' :: rest => String.mk rest
  | _ => l

/-- Modelled from the spec (Block Builder): group consecutive classified
lines of the same kind into blocks, preserving order; narrative lines are
stored with their comment markers stripped. -/
def buildBlocks : List (String × Kind) → List Block
  | [] => []
  | (l, k) :: rest =>
    match buildBlocks rest, k with
    | Block.narrative ms :: bs, Kind.narrative => Block.narrative (stripMarker l :: ms) :: bs
    | Block.code ms :: bs, Kind.code => Block.code (l :: ms) :: bs
    | bs, Kind.narrative => Block.narrative [stripMarker l] :: bs
    | bs, Kind.code => Block.code [l] :: bs

/-- Modelled from the spec (Content): the ordered block sequence for one
file, together with the module identity, the containing-directory location
and the inline-prose toggle it was parsed with. -/
structure Content where
  moduleName : String
  location : FPath
  inline : Bool
  blocks : List Block
deriving DecidableEq, Repr

/-- Modelled from the spec (Parser): a single forward pass that classifies
lines and groups them into blocks, producing a Content. It is a total
function: unrecognized constructs degrade to plain Code. -/
def Parser.parse (lines : List String) (cfg : Config) (moduleName : String)
    (location : FPath) : Content :=
  { moduleName := moduleName
    location := location
    inline := cfg.inline
    blocks := buildBlocks (classifyAll lines) }

/-- Render-time split of a code block's lines: each maximal run of inline
comment lines becomes its own NarrativeBlock, the remaining runs stay
CodeBlocks, in order. -/
def splitInline : List String → List Block
  | [] => []
  | l :: rest =>
    let bs := splitInline rest
    if isInlineComment l then
      match bs with
      | Block.narrative ms :: bs2 => Block.narrative (l :: ms) :: bs2
      | _ => Block.narrative [l] :: bs
    else
      match bs with
      | Block.code ms :: bs2 => Block.code (l :: ms) :: bs2
      | _ => Block.code [l] :: bs

/-- Expansion of one block under the inline-prose option: narrative blocks
are kept, code blocks are split at each inline-comment run. -/
def expandBlock : Block → List Block
  | Block.narrative ls => [Block.narrative ls]
  | Block.code ls => splitInline ls

/-- Modelled from the spec (Content rendering): the effective block
sequence emitted by rendering — the parsed blocks unchanged when the
inline-prose option is off, and with every code block split at its
inline-comment runs when it is on. A render-time transform only: the
parsed blocks themselves are not modified. -/
def effectiveBlocks (inline : Bool) (bs : List Block) : List Block :=
  if inline then bs.flatMap expandBlock else bs

/-- The Markdown lines emitted for one effective block: narrative text as
is, code as one fenced region spanning all of the block's lines. -/
def renderBlockLines : Block → List String
  | Block.narrative ls => ls
  | Block.code ls => "```python" :: ls ++ ["```"]

/-- Modelled from the spec (Content.dump): serialize the effective blocks
as Markdown text. -/
def Content.dump (c : Content) : String :=
  String.intercalate "\n" ((effectiveBlocks c.inline c.blocks).flatMap renderBlockLines)

/- ### The driver: `process` and `process_all` (from `pylliterate/__init__.py`) -/

/-- The module identity that `process` hands to the Parser:
`module_name=input_path.name` (line 143 of `pylliterate/__init__.py`). -/
def moduleNamePassed (inp : FPath) : String := pathName inp

/-- The spec's module-identity derivation, for comparison: the file's path
relative to the documentation root with every path separator normalized to
a single joining character (a dot). -/
def dottedIdentity (rel : FPath) : String := String.intercalate "." rel

/-- The branch test of `process` (line 136): a file is a plain copy
exactly when its suffix is not the source extension. -/
def isRegularCopy (inp : FPath) : Bool := pathSuffix inp != ".py"

/-- The type of the parse-and-dump pipeline run by `process` on a source
file: configuration, file text, module name and location, to Markdown. -/
abbrev RunFn := Config → String → String → FPath → String

/-- Splitting file text into physical lines at newline characters. -/
def splitLinesAux : List Char → List Char → List String
  | [], acc => [String.mk acc.reverse]
  | c :: cs, acc =>
    if c = '\n' then String.mk acc.reverse :: splitLinesAux cs []
    else splitLinesAux cs (c :: acc)

/-- The lines of a file's text. -/
def splitLines (text : String) : List String := splitLinesAux text.toList []

/-- The pipeline `process` actually runs: Parser(...).parse() then dump. -/
def pyRun (cfg : Config) (text : String) (moduleName : String) (location : FPath) : String :=
  Content.dump (Parser.parse (splitLines text) cfg moduleName location)

/-- `process`, parametrized by the parse-and-dump pipeline: create the
output's parent directory (exist_ok), then either copy a non-source file
verbatim or read it, run the pipeline on its text with
`module_name=input_path.name` and `location=input_path.parent`, and write
the result to the output path. On an error the state reached so far is
returned together with the error. -/
def processWith (run : RunFn) (inp out : FPath) (cfg : Config) (fs : FS) :
    FS × Option Err :=
  match mkdirExistOk fs (pathParent out) with
  | Except.error e => (fs, some e)
  | Except.ok fs1 =>
    if isRegularCopy inp then
      match fsRead fs1 inp with
      | Except.error e => (fs1, some e)
      | Except.ok data => (fsWrite fs1 out data, none)
    else
      match fsRead fs1 inp with
      | Except.error e => (fs1, some e)
      | Except.ok text =>
        (fsWrite fs1 out (run cfg text (moduleNamePassed inp) (pathParent inp)), none)

/-- `process` from `pylliterate/__init__.py`. -/
def process (inp out : FPath) (cfg : Config) (fs : FS) : FS × Option Err :=
  processWith pyRun inp out cfg fs

/-- The loop body of `process_all`: process the configured pairs in order,
recording which pairs were handed to `process`; an error stops the loop
and is propagated (the `for` loop has no exception handler). -/
def processAllGo (cfg : Config) : List (FPath × FPath) → FS → List (FPath × FPath) × FS × Option Err
  | [], fs => ([], fs, none)
  | (i, o) :: rest, fs =>
    match process i o cfg fs with
    | (fs1, some e) => ([(i, o)], fs1, some e)
    | (fs1, none) =>
      let r := processAllGo cfg rest fs1
      ((i, o) :: r.1, r.2)

/-- `process_all` from `pylliterate/__init__.py`: iterate `process` over
`cfg.files` in order; the resulting state and error, if any. -/
def processAll (cfg : Config) (fs : FS) : FS × Option Err :=
  (processAllGo cfg cfg.files fs).2

/-- The trace of `(input_path, output_path)` pairs actually handed to
`process` by a run of `process_all`. -/
def processAllTrace (cfg : Config) (fs : FS) : List (FPath × FPath) :=
  (processAllGo cfg cfg.files fs).1

deriving instance DecidableEq for Except

/- ### Helper lemmas -/

/-- A pre-existing directory makes `mkdir(exist_ok=True)` a no-op. -/
theorem mkdir_of_exists (fs : FS) (d : FPath) (h : dirExists fs d = true) :
    mkdirExistOk fs d = Except.ok fs := by
  unfold mkdirExistOk; simp [h]

/-- `mkdir` never touches the file table or the unreadable set. -/
theorem mkdir_files_blocked (fs : FS) (d : FPath) (fs1 : FS)
    (h : mkdirExistOk fs d = Except.ok fs1) :
    fs1.files = fs.files ∧ fs1.blocked = fs.blocked := by
  unfold mkdirExistOk at h
  split at h
  · simp only [Except.ok.injEq] at h; subst h; exact ⟨rfl, rfl⟩
  · split at h
    · simp only [Except.ok.injEq] at h; subst h; exact ⟨rfl, rfl⟩
    · simp at h

/-- A successful `mkdir` leaves the requested directory existing. -/
theorem mkdir_ok_dir (fs : FS) (d : FPath) (fs1 : FS)
    (h : mkdirExistOk fs d = Except.ok fs1) :
    dirExists fs1 d = true := by
  unfold mkdirExistOk at h
  split at h
  next hd =>
    simp only [Except.ok.injEq] at h; subst h; exact hd
  next hd =>
    split at h
    · simp only [Except.ok.injEq] at h; subst h
      simp [dirExists, memPath]
    · simp at h

/-- Reading depends only on the file table and the unreadable set. -/
theorem fsRead_eq_of_files_blocked (fs1 fs : FS) (hf : fs1.files = fs.files)
    (hb : fs1.blocked = fs.blocked) (p : FPath) : fsRead fs1 p = fsRead fs p := by
  unfold fsRead; rw [hf, hb]

/-- Writing one path leaves reads of any other path unchanged. -/
theorem fsRead_write_ne (fs : FS) (p q : FPath) (d : String) (h : q ≠ p) :
    fsRead (fsWrite fs p d) q = fsRead fs q := by
  unfold fsRead fsWrite
  have hl : lookupFile ((p, d) :: fs.files) q = lookupFile fs.files q := by
    simp [lookupFile, h]
  simp only [hl]

/-- Writing a file leaves the directory set unchanged. -/
theorem dirExists_write (fs : FS) (p : FPath) (d : String) (q : FPath) :
    dirExists (fsWrite fs p d) q = dirExists fs q := rfl

/-- Reduction of `processWith` on a non-source input whose output parent
exists and whose contents are readable: a verbatim copy. -/
theorem processWith_copy (run : RunFn) (inp out : FPath) (cfg : Config) (fs : FS)
    (data : String)
    (hc : isRegularCopy inp = true)
    (hdir : dirExists fs (pathParent out) = true)
    (hread : fsRead fs inp = Except.ok data) :
    processWith run inp out cfg fs = (fsWrite fs out data, none) := by
  unfold processWith
  rw [mkdir_of_exists fs _ hdir]
  simp [hc, hread]

/-- Reduction of `processWith` on a source input whose output parent
exists and whose contents are readable: the pipeline is run on the file's
text with `module_name=input_path.name` and `location=input_path.parent`,
and its result is written to the output path. -/
theorem processWith_source (run : RunFn) (inp out : FPath) (cfg : Config) (fs : FS)
    (text : String)
    (hc : isRegularCopy inp = false)
    (hdir : dirExists fs (pathParent out) = true)
    (hread : fsRead fs inp = Except.ok text) :
    processWith run inp out cfg fs =
      (fsWrite fs out (run cfg text (moduleNamePassed inp) (pathParent inp)), none) := by
  unfold processWith
  rw [mkdir_of_exists fs _ hdir]
  simp [hc, hread]

/-- Reduction of `processWith` when creating the output's parent fails. -/
theorem processWith_mkdir_error (run : RunFn) (inp out : FPath) (cfg : Config)
    (fs : FS) (e : Err)
    (hmk : mkdirExistOk fs (pathParent out) = Except.error e) :
    processWith run inp out cfg fs = (fs, some e) := by
  unfold processWith
  rw [hmk]

/-- Reduction of `processWith` when reading the input fails (in either
branch: the copy also reads the input). -/
theorem processWith_read_error (run : RunFn) (inp out : FPath) (cfg : Config)
    (fs fs1 : FS) (e : Err)
    (hmk : mkdirExistOk fs (pathParent out) = Except.ok fs1)
    (hrd : fsRead fs1 inp = Except.error e) :
    processWith run inp out cfg fs = (fs1, some e) := by
  unfold processWith
  rw [hmk]
  by_cases hc : isRegularCopy inp = true <;> simp [hc, hrd]

/-- Reduction of the copy branch after a successful `mkdir`. -/
theorem processWith_copy_go (run : RunFn) (inp out : FPath) (cfg : Config)
    (fs fs1 : FS) (data : String)
    (hmk : mkdirExistOk fs (pathParent out) = Except.ok fs1)
    (hc : isRegularCopy inp = true)
    (hrd : fsRead fs1 inp = Except.ok data) :
    processWith run inp out cfg fs = (fsWrite fs1 out data, none) := by
  unfold processWith
  rw [hmk]
  simp [hc, hrd]

/-- Reduction of the parse branch after a successful `mkdir`. -/
theorem processWith_source_go (run : RunFn) (inp out : FPath) (cfg : Config)
    (fs fs1 : FS) (text : String)
    (hmk : mkdirExistOk fs (pathParent out) = Except.ok fs1)
    (hc : isRegularCopy inp = false)
    (hrd : fsRead fs1 inp = Except.ok text) :
    processWith run inp out cfg fs =
      (fsWrite fs1 out (run cfg text (moduleNamePassed inp) (pathParent inp)), none) := by
  unfold processWith
  rw [hmk]
  simp [hc, hrd]

/- ### Claim C1: the module identity handed to the Parser -/

/-- Fixture for C1: a source file nested two directories deep. -/
def fsC1 : FS :=
  { dirs := [], files := [(["pkg", "sub", "file.py"], "x = 1")], blocked := [] }

/-- Fixture configuration for C1. -/
def cfgC1 : Config := { inline := false, files := [] }

/-- C1 counterexample: for a file nested two directories deep, the module
identity `process` hands to the Parser (`module_name=input_path.name`,
line 143) is merely the file's base name, not the dotted identifier
obtained by normalizing the path separators to dots; a pipeline that
returns its module-name argument observes exactly the base name. -/
theorem module_identity_counterexample :
    moduleNamePassed ["pkg", "sub", "file.py"] = "file.py"
    ∧ moduleNamePassed ["pkg", "sub", "file.py"] = pathName ["pkg", "sub", "file.py"]
    ∧ dottedIdentity ["pkg", "sub", "file.py"] = "pkg.sub.file.py"
    ∧ moduleNamePassed ["pkg", "sub", "file.py"] ≠ dottedIdentity ["pkg", "sub", "file.py"]
    ∧ lookupFile
        (processWith (fun _ _ n _ => n) ["pkg", "sub", "file.py"] ["out.md"] cfgC1 fsC1).1.files
        ["out.md"] = some "file.py" := by
  exact ⟨rfl, rfl, rfl, by decide, rfl⟩

/-- C1 amended: for every source file, `process` hands the Parser the
file's base name (`input_path.name`) as the module identity, together with
the containing directory (`input_path.parent`) as the location; no dotted
flattening of the relative path is performed by `process`. -/
theorem module_identity_amended (run : RunFn) (inp out : FPath) (cfg : Config)
    (fs : FS) (text : String)
    (hpy : pathSuffix inp = ".py")
    (hdir : dirExists fs (pathParent out) = true)
    (hread : fsRead fs inp = Except.ok text) :
    processWith run inp out cfg fs =
      (fsWrite fs out (run cfg text (pathName inp) (pathParent inp)), none) := by
  have hc : isRegularCopy inp = false := by simp [isRegularCopy, hpy]
  exact processWith_source run inp out cfg fs text hc hdir hread

/-- C1 amended, witness: at the concrete nested file the pipeline receives
the base name "file.py" and the location. -/
theorem module_identity_amended_witness :
    processWith (fun _ _ n _ => n) ["pkg", "sub", "file.py"] ["out.md"] cfgC1 fsC1 =
      (fsWrite fsC1 ["out.md"]
        (pathName ["pkg", "sub", "file.py"]), none) :=
  module_identity_amended (fun _ _ n _ => n) ["pkg", "sub", "file.py"] ["out.md"]
    cfgC1 fsC1 "x = 1" (by decide) (by decide) rfl

/- ### Claim C3: non-source files are byte-copied, never parsed -/

/-- Fixture for C3: a binary-ish non-source file. -/
def fsC3 : FS :=
  { dirs := [], files := [(["img.png"], "PNGDATA")], blocked := [] }

/-- Fixture configuration for C3. -/
def cfgC3 : Config := { inline := false, files := [] }

/-- C3: for every input path whose suffix is not ".py", `process` writes
the input's bytes unchanged to the output path, and the result does not
depend on the parse-and-dump pipeline at all (no Parser is constructed,
the contents are never interpreted). -/
theorem nonsource_byte_copy (inp out : FPath) (cfg : Config) (fs : FS) (data : String)
    (hn : pathSuffix inp ≠ ".py")
    (hdir : dirExists fs (pathParent out) = true)
    (hread : fsRead fs inp = Except.ok data) :
    process inp out cfg fs = (fsWrite fs out data, none)
    ∧ ∀ run : RunFn, processWith run inp out cfg fs = process inp out cfg fs := by
  have hc : isRegularCopy inp = true := by simp [isRegularCopy, hn]
  refine ⟨processWith_copy pyRun inp out cfg fs data hc hdir hread, ?_⟩
  intro run
  rw [processWith_copy run inp out cfg fs data hc hdir hread]
  exact (processWith_copy pyRun inp out cfg fs data hc hdir hread).symm

/-- C3 witness: the concrete image file is byte-copied. -/
theorem nonsource_byte_copy_witness :
    process ["img.png"] ["docs.png"] cfgC3 fsC3 = (fsWrite fsC3 ["docs.png"] "PNGDATA", none) :=
  (nonsource_byte_copy ["img.png"] ["docs.png"] cfgC3 fsC3 "PNGDATA"
    (by decide) (by decide) rfl).1

/- ### Claim C4: source files are read, parsed, and dumped -/

/-- Fixture for C4: a small source file. -/
def fsC4 : FS :=
  { dirs := [], files := [(["m.py"], "# top\nx = 1")], blocked := [] }

/-- Fixture configuration for C4. -/
def cfgC4 : Config := { inline := false, files := [] }

/-- C4: for every input path with the ".py" suffix (readable, with the
output's parent directory existing), `process` reads the file, runs the
Parser's single pass over its lines to obtain a Content, and writes that
Content's Markdown serialization to the output path; the data flow
read, then parse, then dump is exhibited by the result. -/
theorem source_parse_then_dump (inp out : FPath) (cfg : Config) (fs : FS) (text : String)
    (hpy : pathSuffix inp = ".py")
    (hdir : dirExists fs (pathParent out) = true)
    (hread : fsRead fs inp = Except.ok text) :
    process inp out cfg fs =
      (fsWrite fs out
        (Content.dump
          (Parser.parse (splitLines text) cfg (moduleNamePassed inp) (pathParent inp))),
       none) := by
  have hc : isRegularCopy inp = false := by simp [isRegularCopy, hpy]
  exact processWith_source pyRun inp out cfg fs text hc hdir hread

/-- C4 witness: the concrete source file is parsed and dumped. -/
theorem source_parse_then_dump_witness :
    process ["m.py"] ["m.md"] cfgC4 fsC4 =
      (fsWrite fsC4 ["m.md"]
        (Content.dump
          (Parser.parse (splitLines "# top\nx = 1") cfgC4
            (moduleNamePassed ["m.py"]) (pathParent ["m.py"]))),
       none) :=
  source_parse_then_dump ["m.py"] ["m.md"] cfgC4 fsC4 "# top\nx = 1"
    (by decide) (by decide) rfl

/- ### Claim C10: the parse-versus-copy decision is by exact suffix only -/

/-- Fixture for C10: an upper-case ".PY" file with Python-looking text. -/
def fsC10 : FS :=
  { dirs := [], files := [(["a.PY"], "import os\nx = 1")], blocked := [] }

/-- Fixture configuration for C10. -/
def cfgC10 : Config := { inline := false, files := [] }

/-- C10: the decision to copy rather than parse is a function of the input
path's suffix alone (never of the file's contents), the comparison with
".py" is exact and case-sensitive, and for any input classified as a copy
the behavior of `process` is independent of the parse pipeline. -/
theorem copy_decision_by_suffix :
    (∀ inp1 inp2 : FPath, pathSuffix inp1 = pathSuffix inp2 →
        isRegularCopy inp1 = isRegularCopy inp2)
    ∧ pathSuffix ["a.PY"] = ".PY"
    ∧ isRegularCopy ["a.PY"] = true
    ∧ pathSuffix ["noext"] = ""
    ∧ isRegularCopy ["noext"] = true
    ∧ isRegularCopy ["pkg", "file.py"] = false
    ∧ ∀ (run1 run2 : RunFn) (inp out : FPath) (cfg : Config) (fs : FS),
        isRegularCopy inp = true →
        processWith run1 inp out cfg fs = processWith run2 inp out cfg fs := by
  refine ⟨?_, by decide, by decide, by decide, by decide, by decide, ?_⟩
  · intro inp1 inp2 h
    unfold isRegularCopy
    rw [h]
  · intro run1 run2 inp out cfg fs hc
    unfold processWith
    rcases mkdirExistOk fs (pathParent out) with e | fs1
    · rfl
    · simp [hc]

/-- C10 witness: the suffix-only decision and pipeline independence at
concrete inputs, including a ".PY" file whose contents look like Python. -/
theorem copy_decision_by_suffix_witness :
    isRegularCopy ["a.PY"] = isRegularCopy ["b.PY"]
    ∧ processWith (fun _ _ _ _ => "ONE") ["a.PY"] ["out"] cfgC10 fsC10 =
        processWith (fun _ _ _ _ => "TWO") ["a.PY"] ["out"] cfgC10 fsC10 :=
  ⟨copy_decision_by_suffix.1 ["a.PY"] ["b.PY"] (by decide),
   copy_decision_by_suffix.2.2.2.2.2.2 (fun _ _ _ _ => "ONE") (fun _ _ _ _ => "TWO")
     ["a.PY"] ["out"] cfgC10 fsC10 (by decide)⟩

/- ### Claims C2 and C5: batch behavior of `process_all` -/

/-- On an error-free run, the loop of `process_all` hands every configured
pair to `process`, in order. -/
theorem processAllGo_trace_of_ok (cfg : Config) :
    ∀ (l : List (FPath × FPath)) (fs : FS),
      (processAllGo cfg l fs).2.2 = none → (processAllGo cfg l fs).1 = l := by
  intro l
  induction l with
  | nil => intro fs _; rfl
  | cons p rest ih =>
    intro fs h
    obtain ⟨i, o⟩ := p
    rcases hp : process i o cfg fs with ⟨fs1, oe⟩
    cases oe with
    | some e => simp [processAllGo, hp] at h
    | none =>
      simp only [processAllGo, hp] at h ⊢
      exact congrArg _ (ih fs1 h)

/-- The loop of `process_all` only ever hands a prefix of the configured
pairs to `process`: no pair outside the configuration, none twice, and in
the configured order. -/
theorem processAllGo_trace_eats (cfg : Config) :
    ∀ (l : List (FPath × FPath)) (fs : FS),
      ∃ rest2, l = (processAllGo cfg l fs).1 ++ rest2 := by
  intro l
  induction l with
  | nil => intro fs; exact ⟨[], rfl⟩
  | cons p rest ih =>
    intro fs
    obtain ⟨i, o⟩ := p
    rcases hp : process i o cfg fs with ⟨fs1, oe⟩
    cases oe with
    | some e =>
      refine ⟨rest, ?_⟩
      simp [processAllGo, hp]
    | none =>
      obtain ⟨r2, hr⟩ := ih fs1
      refine ⟨r2, ?_⟩
      simp only [processAllGo, hp]
      simpa using hr

/-- Fixture for C2: a batch whose first input is missing and whose second
input is present and processable. -/
def fsC2 : FS :=
  { dirs := [], files := [(["good.txt"], "hello")], blocked := [] }

/-- Fixture configuration for C2. -/
def cfgC2 : Config :=
  { inline := false
    files := [(["bad.py"], ["bad.md"]), (["good.txt"], ["good.md"])] }

/-- C2 counterexample: with a batch of two pairs whose first input raises
a file-not-found error, `process_all` propagates the error and the second
pair is never handed to `process`, even though processing it alone would
succeed — one bad file does abort the rest of the batch. -/
theorem batch_abort_counterexample :
    (processAll cfgC2 fsC2).2 = some Err.fileNotFound
    ∧ processAllTrace cfgC2 fsC2 = [(["bad.py"], ["bad.md"])]
    ∧ (process ["good.txt"] ["good.md"] cfgC2 fsC2).2 = none := by
  exact ⟨rfl, rfl, rfl⟩

/-- The loop of `process_all` after any error-free prefix: if every pair
of `done` is processed without error and the next pair then fails from the
state reached, the whole loop fails with that very error and its trace is
the processed prefix plus the failing pair — the pairs of `rest` are never
handed to `process`. -/
theorem processAllGo_append_fail (cfg : Config) (i o : FPath)
    (rest : List (FPath × FPath)) (e : Err) :
    ∀ (done : List (FPath × FPath)) (fs : FS),
      (processAllGo cfg done fs).2.2 = none →
      (process i o cfg (processAllGo cfg done fs).2.1).2 = some e →
      (processAllGo cfg (done ++ (i, o) :: rest) fs).2.2 = some e
      ∧ (processAllGo cfg (done ++ (i, o) :: rest) fs).1 = done ++ [(i, o)] := by
  intro done
  induction done with
  | nil =>
    intro fs _ hfail
    rcases hp : process i o cfg fs with ⟨fs1, oe⟩
    rw [show processAllGo cfg [] fs = ([], fs, none) from rfl] at hfail
    simp only at hfail
    rw [hp] at hfail
    simp only at hfail
    subst hfail
    exact ⟨by simp [processAllGo, hp], by simp [processAllGo, hp]⟩
  | cons p done2 ih =>
    intro fs hok hfail
    obtain ⟨i2, o2⟩ := p
    rcases hp : process i2 o2 cfg fs with ⟨fs1, oe⟩
    cases oe with
    | some e2 =>
      simp [processAllGo, hp] at hok
    | none =>
      simp only [processAllGo, hp] at hok hfail
      obtain ⟨h1, h2⟩ := ih fs1 hok hfail
      constructor
      · simpa only [List.cons_append, processAllGo, hp] using h1
      · simp only [List.cons_append, processAllGo, hp]
        simp [h2]

/-- C2 amended: `process_all` processes the configured pairs in order only
until the first failure, wherever in the batch it occurs: when every pair
before some configured pair is processed without error and that pair then
fails, the error propagates out of `process_all` unchanged and the pairs
after the failing one are not processed (the loop has no exception
handler). -/
theorem batch_stops_at_first_error (cfg : Config) (fs : FS)
    (done : List (FPath × FPath)) (i o : FPath)
    (rest : List (FPath × FPath)) (e : Err)
    (hfiles : cfg.files = done ++ (i, o) :: rest)
    (hok : (processAllGo cfg done fs).2.2 = none)
    (hfail : (process i o cfg (processAllGo cfg done fs).2.1).2 = some e) :
    (processAll cfg fs).2 = some e
    ∧ processAllTrace cfg fs = done ++ [(i, o)] := by
  unfold processAll processAllTrace
  rw [hfiles]
  exact processAllGo_append_fail cfg i o rest e done fs hok hfail

/-- Fixture for the C2 amended witness: a three-pair batch whose middle
input is missing; the first and third pairs alone would process fine. -/
def fsC2m : FS :=
  { dirs := []
    files := [(["one.txt"], "1"), (["three.txt"], "3")]
    blocked := [] }

/-- Fixture configuration for the C2 amended witness. -/
def cfgC2m : Config :=
  { inline := false
    files := [(["one.txt"], ["one.md"]), (["two.py"], ["two.md"]),
      (["three.txt"], ["three.md"])] }

/-- C2 amended, witness: the concrete batch fails at its middle pair; the
error propagates and the trace stops there, leaving the third pair
unprocessed. -/
theorem batch_stops_at_first_error_witness :
    (processAll cfgC2m fsC2m).2 = some Err.fileNotFound
    ∧ processAllTrace cfgC2m fsC2m =
        [(["one.txt"], ["one.md"]), (["two.py"], ["two.md"])] :=
  batch_stops_at_first_error cfgC2m fsC2m [(["one.txt"], ["one.md"])]
    ["two.py"] ["two.md"] [(["three.txt"], ["three.md"])] Err.fileNotFound
    rfl rfl rfl

/-- Fixture for C5: a batch whose first input is missing. -/
def fsC5 : FS :=
  { dirs := [], files := [(["ok.txt"], "data")], blocked := [] }

/-- Fixture configuration for C5: two pairs, the first failing. -/
def cfgC5 : Config :=
  { inline := false
    files := [(["absent.py"], ["absent.md"]), (["ok.txt"], ["ok.md"])] }

/-- Fixture for the C5 witness: a single-pair batch that succeeds. -/
def fsC5w : FS :=
  { dirs := [], files := [(["note.txt"], "n")], blocked := [] }

/-- Fixture configuration for the C5 witness. -/
def cfgC5w : Config :=
  { inline := false, files := [(["note.txt"], ["note.md"])] }

/-- C5 counterexample: when a configured pair fails, `process_all` does
not process each configured pair once — the pair after the failing one is
never handed to `process`, so the processed trace differs from the
configured collection. -/
theorem batch_exact_counterexample :
    processAllTrace cfgC5 fsC5 = [(["absent.py"], ["absent.md"])]
    ∧ processAllTrace cfgC5 fsC5 ≠ cfgC5.files := by
  refine ⟨rfl, by decide⟩

/-- C5 amended: `process_all` hands `process` exactly a prefix of the
externally supplied collection of pairs, in the collection's order — no
file outside the collection is ever processed and no pair is processed
twice — and on an error-free run that prefix is the whole collection:
each configured pair processed once, in order. The configuration itself
is only read (the embedding passes it unchanged to every call). -/
theorem batch_processes_configured_pairs (cfg : Config) (fs : FS) :
    ((processAll cfg fs).2 = none → processAllTrace cfg fs = cfg.files)
    ∧ ∃ rest2, cfg.files = processAllTrace cfg fs ++ rest2 := by
  constructor
  · intro h
    exact processAllGo_trace_of_ok cfg cfg.files fs h
  · exact processAllGo_trace_eats cfg cfg.files fs

/-- C5 amended, witness: the concrete error-free batch processes exactly
its configured pair. -/
theorem batch_processes_configured_pairs_witness :
    processAllTrace cfgC5w fsC5w = cfgC5w.files :=
  (batch_processes_configured_pairs cfgC5w fsC5w).1 rfl

/- ### Claim C6: a source file fails only on unreadable input -/

/-- Fixture for C6: a present but unreadable source file. -/
def fsC6 : FS :=
  { dirs := [], files := [(["locked.py"], "x = 1")], blocked := [["locked.py"]] }

/-- Fixture configuration for C6. -/
def cfgC6 : Config := { inline := false, files := [] }

/-- C6: with the output's parent directory in place, processing a source
file fails exactly when reading its input fails, and the input error is
propagated unchanged to the caller rather than swallowed; the parse itself
is a total function of the text (unrecognized constructs are classified as
plain Code by the line classifier), so no file contents can make
processing fail. -/
theorem source_fails_only_unreadable (inp out : FPath) (cfg : Config) (fs : FS)
    (hpy : pathSuffix inp = ".py")
    (hdir : dirExists fs (pathParent out) = true) :
    ∀ e : Err, (process inp out cfg fs).2 = some e ↔ fsRead fs inp = Except.error e := by
  intro e
  have hc : isRegularCopy inp = false := by simp [isRegularCopy, hpy]
  unfold process processWith
  rw [mkdir_of_exists fs _ hdir]
  rcases hr : fsRead fs inp with e2 | text
  · simp [hc, hr]
  · simp [hc, hr]

/-- C6 witness: the concrete unreadable source file makes `process` fail
with exactly the read error, and the missing-file direction also holds. -/
theorem source_fails_only_unreadable_witness :
    (process ["locked.py"] ["locked.md"] cfgC6 fsC6).2 = some Err.readError :=
  (source_fails_only_unreadable ["locked.py"] ["locked.md"] cfgC6 fsC6
    (by decide) (by decide) Err.readError).mpr rfl

/- ### Claim C9: output parent directory creation -/

/-- Fixture for C9: one existing directory `docs`, two files. -/
def fsC9 : FS :=
  { dirs := [["docs"]]
    files := [(["a.py"], "x = 1"), (["b.txt"], "t")]
    blocked := [] }

/-- Fixture configuration for C9. -/
def cfgC9 : Config := { inline := false, files := [] }

/-- C9: `process` creates the output path's immediate parent directory
before producing any output; a pre-existing parent is not an error (the
creation is a no-op); only that one level is created, so when the
parent's own parent is also missing, `process` raises file-not-found and
returns with the file system unchanged — nothing is written; and whenever
`process` returns without error, the output's parent directory exists in
the resulting state. -/
theorem output_parent_mkdir (inp out : FPath) (cfg : Config) (fs : FS) :
    (dirExists fs (pathParent out) = true →
        mkdirExistOk fs (pathParent out) = Except.ok fs)
    ∧ (dirExists fs (pathParent out) = false →
        dirExists fs (pathParent (pathParent out)) = false →
        process inp out cfg fs = (fs, some Err.fileNotFound))
    ∧ ((process inp out cfg fs).2 = none →
        dirExists (process inp out cfg fs).1 (pathParent out) = true) := by
  refine ⟨fun h => mkdir_of_exists fs _ h, ?_, ?_⟩
  · intro h1 h2
    have hmk : mkdirExistOk fs (pathParent out) = Except.error Err.fileNotFound := by
      unfold mkdirExistOk
      simp [h1, h2]
    unfold process processWith
    rw [hmk]
  · unfold process processWith
    rcases hmk : mkdirExistOk fs (pathParent out) with e | fs1
    · intro h; simp at h
    · have hd1 : dirExists fs1 (pathParent out) = true := mkdir_ok_dir fs _ fs1 hmk
      by_cases hc : isRegularCopy inp
      · rcases hr : fsRead fs1 inp with e2 | data
        · simp [hc, hr]
        · intro _
          simp [hc, hr, dirExists_write, hd1]
      · rcases hr : fsRead fs1 inp with e2 | text
        · simp [hc, hr]
        · intro _
          simp [hc, hr, dirExists_write, hd1]

/-- C9 witness: the three conjuncts at concrete states — a pre-existing
`docs` parent is accepted, a two-levels-missing parent raises with the
state unchanged, and a successful run leaves the parent existing. -/
theorem output_parent_mkdir_witness :
    mkdirExistOk fsC9 (pathParent ["docs", "out.md"]) = Except.ok fsC9
    ∧ process ["a.py"] ["x", "y", "out.md"] cfgC9 fsC9 = (fsC9, some Err.fileNotFound)
    ∧ dirExists (process ["b.txt"] ["out2.md"] cfgC9 fsC9).1 (pathParent ["out2.md"]) = true :=
  ⟨(output_parent_mkdir ["a.py"] ["docs", "out.md"] cfgC9 fsC9).1 (by decide),
   (output_parent_mkdir ["a.py"] ["x", "y", "out.md"] cfgC9 fsC9).2.1 (by decide) (by decide),
   (output_parent_mkdir ["b.txt"] ["out2.md"] cfgC9 fsC9).2.2 (by decide)⟩

/- ### Claim C8: frame of `process` over the file system -/

/-- Frame property of `processWith`: when the output path differs from the
input path, reads of the input are unchanged by a run; and on any failing
run, no file has been written (the file table is exactly the initial
one). -/
theorem processWith_frame (run : RunFn) (inp out : FPath) (cfg : Config) (fs : FS) :
    (inp ≠ out → fsRead (processWith run inp out cfg fs).1 inp = fsRead fs inp)
    ∧ (∀ e, (processWith run inp out cfg fs).2 = some e →
        ((processWith run inp out cfg fs).1).files = fs.files) := by
  rcases hmk : mkdirExistOk fs (pathParent out) with e | fs1
  · rw [processWith_mkdir_error run inp out cfg fs e hmk]
    exact ⟨fun _ => rfl, fun _ _ => rfl⟩
  · obtain ⟨hf, hb⟩ := mkdir_files_blocked fs _ fs1 hmk
    have hr1 : fsRead fs1 inp = fsRead fs inp :=
      fsRead_eq_of_files_blocked fs1 fs hf hb inp
    rcases hrd : fsRead fs1 inp with e2 | data
    · rw [processWith_read_error run inp out cfg fs fs1 e2 hmk hrd]
      exact ⟨fun _ => hr1, fun _ _ => hf⟩
    · cases hc : isRegularCopy inp with
      | true =>
        rw [processWith_copy_go run inp out cfg fs fs1 data hmk hc hrd]
        refine ⟨fun hne => ?_, fun e3 h3 => by simp at h3⟩
        rw [fsRead_write_ne fs1 out inp data hne]
        exact hr1
      | false =>
        rw [processWith_source_go run inp out cfg fs fs1 data hmk hc hrd]
        refine ⟨fun hne => ?_, fun e3 h3 => by simp at h3⟩
        rw [fsRead_write_ne fs1 out inp _ hne]
        exact hr1

/-- Fixture for C8: a source file that is its own output path. -/
def fsC8 : FS :=
  { dirs := [], files := [(["a.py"], "x = 1")], blocked := [] }

/-- Fixture configuration for C8. -/
def cfgC8 : Config := { inline := false, files := [] }

/-- C8 counterexample: when the output path coincides with the input path,
`process` succeeds and overwrites the input file with the rendered
Markdown — the input file is modified, so "process never modifies the
input file" fails as stated at this input. -/
theorem input_overwrite_counterexample :
    fsRead fsC8 ["a.py"] = Except.ok "x = 1"
    ∧ (process ["a.py"] ["a.py"] cfgC8 fsC8).2 = none
    ∧ fsRead (process ["a.py"] ["a.py"] cfgC8 fsC8).1 ["a.py"] =
        Except.ok "```python\nx = 1\n```"
    ∧ fsRead (process ["a.py"] ["a.py"] cfgC8 fsC8).1 ["a.py"] ≠ fsRead fsC8 ["a.py"] := by
  exact ⟨rfl, rfl, rfl, by decide⟩

/-- C8 amended: provided the output path differs from the input path,
`process` never modifies the input file (reads of it are unaffected); and
on any failing run — in particular whenever reading or parsing the input
cannot complete — nothing has been written, so the output path's file
entry is exactly as before. -/
theorem process_frame (inp out : FPath) (cfg : Config) (fs : FS)
    (hne : inp ≠ out) :
    fsRead (process inp out cfg fs).1 inp = fsRead fs inp
    ∧ (∀ e, (process inp out cfg fs).2 = some e →
        ((process inp out cfg fs).1).files = fs.files) := by
  unfold process
  exact ⟨(processWith_frame pyRun inp out cfg fs).1 hne,
    (processWith_frame pyRun inp out cfg fs).2⟩

/-- C8 amended, witness: a distinct output path leaves the input readable
as before, and a failing run (missing input) writes nothing. -/
theorem process_frame_witness :
    fsRead (process ["a.py"] ["a.md"] cfgC8 fsC8).1 ["a.py"] = fsRead fsC8 ["a.py"]
    ∧ (process ["missing.py"] ["m.md"] cfgC8 fsC8).1.files = fsC8.files :=
  ⟨(process_frame ["a.py"] ["a.md"] cfgC8 fsC8 (by decide)).1,
   (process_frame ["missing.py"] ["m.md"] cfgC8 fsC8 (by decide)).2
     Err.fileNotFound rfl⟩

/- ### Claim C7: the render-time inline-prose transform -/

/-- A homogeneous nonempty run: a narrative block of inline comment lines
only, or a code block with no inline comment line. -/
def blockIsRun : Block → Bool
  | Block.narrative ls => !ls.isEmpty && ls.all (fun l => isInlineComment l)
  | Block.code ls => !ls.isEmpty && ls.all (fun l => !isInlineComment l)

/-- The render-time split of a code block loses, duplicates and reorders
no line: flattening the split blocks gives back the original lines. -/
theorem splitInline_flatten : ∀ ls : List String, blocksFlatten (splitInline ls) = ls := by
  intro ls
  induction ls with
  | nil => rfl
  | cons l rest ih =>
    rcases hsp : splitInline rest with _ | ⟨b, bs2⟩ <;> rw [hsp] at ih
    · by_cases hl : isInlineComment l <;>
        simp [splitInline, hsp, hl, blocksFlatten, blockLines] <;>
        simpa [blocksFlatten] using ih
    · cases b <;> by_cases hl : isInlineComment l <;>
        simp [splitInline, hsp, hl, blocksFlatten, blockLines] at ih ⊢ <;>
        simp [ih]

/-- Every block produced by the render-time split is a nonempty
homogeneous run: narrative blocks hold only inline comment lines, code
blocks hold none. -/
theorem splitInline_runs :
    ∀ (ls : List String) (b : Block), b ∈ splitInline ls → blockIsRun b = true := by
  intro ls
  induction ls with
  | nil => intro b h; simp [splitInline] at h
  | cons l rest ih =>
    intro b hb
    rcases hsp : splitInline rest with _ | ⟨b1, bs2⟩ <;> rw [hsp] at ih
    · by_cases hl : isInlineComment l <;>
        simp [splitInline, hsp, hl] at hb <;>
        simp [hb, blockIsRun, hl]
    · cases b1 with
      | narrative ms =>
        by_cases hl : isInlineComment l
        · simp only [splitInline, hsp, hl, if_true] at hb
          rcases List.mem_cons.mp hb with hb1 | hb2
          · subst hb1
            have hms := ih (Block.narrative ms) (by simp)
            simp only [blockIsRun, List.all_cons, Bool.and_eq_true] at hms ⊢
            simp [hl, hms.2]
          · exact ih b (by simp [hb2])
        · simp only [splitInline, hsp, hl, if_false, Bool.false_eq_true] at hb
          rcases List.mem_cons.mp hb with hb1 | hb2
          · subst hb1
            simp [blockIsRun, hl]
          · exact ih b hb2
      | code ms =>
        by_cases hl : isInlineComment l
        · simp only [splitInline, hsp, hl, if_true] at hb
          rcases List.mem_cons.mp hb with hb1 | hb2
          · subst hb1
            simp [blockIsRun, hl]
          · exact ih b hb2
        · simp only [splitInline, hsp, hl, if_false, Bool.false_eq_true] at hb
          rcases List.mem_cons.mp hb with hb1 | hb2
          · subst hb1
            have hms := ih (Block.code ms) (by simp)
            simp only [blockIsRun, List.all_cons, Bool.and_eq_true] at hms ⊢
            simp [hl, hms.2]
          · exact ih b (by simp [hb2])

/-- The render-time split alternates: adjacent produced blocks never share
a kind, so each narrative block is a maximal inline-comment run. -/
theorem splitInline_alternates : ∀ ls : List String,
    List.Chain' (fun a b => Block.isNarrative a ≠ Block.isNarrative b) (splitInline ls) := by
  intro ls
  induction ls with
  | nil => simp [splitInline]
  | cons l rest ih =>
    rcases hsp : splitInline rest with _ | ⟨b1, bs2⟩ <;> rw [hsp] at ih
    · by_cases hl : isInlineComment l <;> simp [splitInline, hsp, hl]
    · cases b1 with
      | narrative ms =>
        by_cases hl : isInlineComment l
        · simp only [splitInline, hsp, hl, if_true]
          cases bs2 with
          | nil => simp
          | cons b2 t =>
            rw [List.chain'_cons] at ih ⊢
            exact ⟨ih.1, ih.2⟩
        · simp only [splitInline, hsp, hl, if_false, Bool.false_eq_true]
          rw [List.chain'_cons]
          exact ⟨by simp [Block.isNarrative], ih⟩
      | code ms =>
        by_cases hl : isInlineComment l
        · simp only [splitInline, hsp, hl, if_true]
          rw [List.chain'_cons]
          exact ⟨by simp [Block.isNarrative], ih⟩
        · simp only [splitInline, hsp, hl, if_false, Bool.false_eq_true]
          cases bs2 with
          | nil => simp
          | cons b2 t =>
            rw [List.chain'_cons] at ih ⊢
            exact ⟨ih.1, ih.2⟩

/-- C7: the inline-prose toggle is a render-time transform. The parsed
block structure is independent of the configuration (in particular of the
toggle); with the option off the effective rendered blocks are exactly the
parsed blocks, so every inline comment line stays inside its enclosing
code block's single fenced region; with the option on each code block is
replaced at render time by its split, in which every maximal run of
inline comment lines is its own NarrativeBlock at its original position,
the remaining lines stay in CodeBlocks, and no line is lost, duplicated
or reordered. -/
theorem inline_render_toggle (lines : List String) (cfg1 cfg2 : Config)
    (n : String) (loc : FPath) :
    (Parser.parse lines cfg1 n loc).blocks = (Parser.parse lines cfg2 n loc).blocks
    ∧ (∀ bs : List Block, effectiveBlocks false bs = bs)
    ∧ (∀ ls : List String, effectiveBlocks true [Block.code ls] = splitInline ls)
    ∧ (∀ ls : List String, blocksFlatten (splitInline ls) = ls)
    ∧ (∀ (ls : List String) (b : Block), b ∈ splitInline ls → blockIsRun b = true)
    ∧ (∀ ls : List String, List.Chain'
        (fun a b => Block.isNarrative a ≠ Block.isNarrative b) (splitInline ls)) := by
  refine ⟨rfl, fun bs => rfl, fun ls => ?_, splitInline_flatten, splitInline_runs,
    splitInline_alternates⟩
  simp [effectiveBlocks, expandBlock]

/-- Fixture configuration for the C7 witness. -/
def cfgC7 : Config := { inline := true, files := [] }

/-- C7 witness: on a concrete code block with one inline-comment run, the
split extracts the run as its own narrative block, the blocks flatten back
to the original lines, and the extracted narrative block is a pure
inline-comment run. -/
theorem inline_render_toggle_witness :
    effectiveBlocks true [Block.code ["def f():", "    # say hi", "    return 1"]] =
      [Block.code ["def f():"], Block.narrative ["    # say hi"],
        Block.code ["    return 1"]]
    ∧ blocksFlatten (splitInline ["def f():", "    # say hi", "    return 1"]) =
        ["def f():", "    # say hi", "    return 1"]
    ∧ blockIsRun (Block.narrative ["    # say hi"]) = true :=
  ⟨by rw [(inline_render_toggle [] cfgC7 cfgC7 "" []).2.2.1
      ["def f():", "    # say hi", "    return 1"]]; rfl,
   (inline_render_toggle [] cfgC7 cfgC7 "" []).2.2.2.1
     ["def f():", "    # say hi", "    return 1"],
   (inline_render_toggle [] cfgC7 cfgC7 "" []).2.2.2.2.1
     ["def f():", "    # say hi", "    return 1"]
     (Block.narrative ["    # say hi"]) (by decide)⟩

end Pylliterate
